import Mathlib

/-!
Verification of the note-to-wikijs content pipeline.

A shallow embedding of the repository's TypeScript sources:
* `MarkdownProcessor` (src/markdown-processor.ts): `processMarkdown`,
  `generatePath`, `extractTags` and their regex-based rewrite stages,
  re-expressed as deterministic character scanners with the exact
  semantics of the JavaScript regexes used by the code;
* `WikiJSAPI` (src/wikijs-api.ts): `createPage` / `updatePage` over an
  abstract GraphQL channel, and `ensureAssetFolderPath` /
  `createAssetFolder` / `findFolderIdByName` over an abstract remote
  asset-folder store;
* `UploadModal` (src/upload-modal.ts): `uploadImages` / `performUpload`
  control flow, and `ImageTagProcessor.resolveImageFiles`
  (src/image-tag-processor.ts).

Strings are modelled as `List Char` internally (`String.data`), so every
definition is executable and concrete runs evaluate by `decide` / `rfl`.
-/

namespace NoteToWikiJS

/-! ## JavaScript string primitives -/

/-- JavaScript `\s` (whitespace class), restricted to the characters the
sources can realistically meet: space, tab, newline, carriage return,
vertical tab, form feed and no-break space. -/
def jsWs (c : Char) : Bool :=
  c = ' ' || c = '\t' || c = '\n' || c = '\r' || c = '\x0b' || c = '\x0c' || c = '\u00A0'

/-- JavaScript `String.prototype.trim` on a character list. -/
def trimChars (cs : List Char) : List Char :=
  ((cs.dropWhile jsWs).reverse.dropWhile jsWs).reverse

/-- JavaScript `String.prototype.trim`. -/
def jsTrim (s : String) : String := ⟨trimChars s.data⟩

/-- JavaScript `String.prototype.toLowerCase` (ASCII range, which is all
the sources rely on). -/
def lowerChars (cs : List Char) : List Char := cs.map Char.toLower

/-- `l` begins with `p` (literal character-list test; avoids any library
name). -/
def beginsWith : List Char → List Char → Bool
  | [], _ => true
  | _ :: _, [] => false
  | p :: ps, c :: cs => p = c && beginsWith ps cs

/-- Index of the first occurrence of `pat` in `cs`, if any. -/
def findSub (pat : List Char) : List Char → Option Nat
  | [] => if pat = [] then some 0 else none
  | c :: cs =>
    if beginsWith pat (c :: cs) then some 0
    else (findSub pat cs).map (· + 1)

/-- Characters of `cs` up to (excluding) the next `'\n'`: the rest of the
current line, as JavaScript `.` / `$` see it. -/
def lineRest (cs : List Char) : List Char := cs.takeWhile (fun c => c ≠ '\n')

/-! ## Generic rewrite scanner

Each JavaScript `String.replace(regex, f)` with a global regex is embedded
as a deterministic scanner: a `parse` function receives the character just
before the current position (`none` at the very start of the string, which
is how `^`-anchored alternatives and `m`-flagged line starts are decided)
and the remaining input, and returns `some (k, replacement)` when the
regex matches `k ≥ 1` characters here.  The scanner emits the replacement
and resumes immediately after the match, exactly like `replace`.  Fuel
(always instantiated to the input length plus one, which is sufficient
since every step consumes at least one character) makes the recursion
structural. -/

def scanGo (parse : Option Char → List Char → Option (Nat × List Char)) :
    Nat → Option Char → List Char → List Char
  | 0, _, cs => cs
  | _ + 1, _, [] => []
  | fuel + 1, prev, c :: cs =>
    match parse prev (c :: cs) with
    | some (k, repl) =>
      repl ++ scanGo parse fuel (some (((c :: cs).take k).getLastD c)) (cs.drop (k - 1))
    | none => c :: scanGo parse fuel (some c) cs

/-- Run a rewrite scanner over a whole string. -/
def scanStr (parse : Option Char → List Char → Option (Nat × List Char))
    (s : String) : String :=
  ⟨scanGo parse (s.data.length + 1) none s.data⟩

/-- Whether the regex embedded by `parse` matches anywhere in the input
(tested at every position, with the honest previous-character context).
This is the code-derived meaning of "the text contains the construct". -/
def scanHas (parse : Option Char → List Char → Option (Nat × List Char)) :
    Option Char → List Char → Bool
  | _, [] => false
  | prev, c :: cs => (parse prev (c :: cs)).isSome || scanHas parse (some c) cs

/-! ## Path Normalizer: `MarkdownProcessor.generatePath` -/

theorem dropWhile_len_le (p : α → Bool) (l : List α) :
    (l.dropWhile p).length ≤ l.length := by
  induction l with
  | nil => simp [List.dropWhile]
  | cons c cs ih =>
    simp only [List.dropWhile]
    split
    · exact le_trans ih (Nat.le_succ _)
    · simp

/-- Helper for `wsRunsTo`: `inRun` records whether the previous character
was whitespace (so the current run has already emitted its `r`). -/
def wsRunsToAux (r : Char) : Bool → List Char → List Char
  | _, [] => []
  | inRun, c :: cs =>
    if jsWs c then
      (if inRun then [] else [r]) ++ wsRunsToAux r true cs
    else c :: wsRunsToAux r false cs

/-- Replace every maximal run of JavaScript whitespace by a single
character `r` (JS global replace of one-or-more whitespace). -/
def wsRunsTo (r : Char) (cs : List Char) : List Char :=
  wsRunsToAux r false cs

/-- JS anchored replace of a leading date marker: strip a leading
`YYYY-MM-DD-` (four digits, dash, two digits, dash, two digits, dash). -/
def dropDateMarker (cs : List Char) : List Char :=
  match cs with
  | y1 :: y2 :: y3 :: y4 :: d1 :: m1 :: m2 :: d2 :: a1 :: a2 :: d3 :: rest =>
    if y1.isDigit && y2.isDigit && y3.isDigit && y4.isDigit && d1 = '-' &&
       m1.isDigit && m2.isDigit && d2 = '-' && a1.isDigit && a2.isDigit && d3 = '-' then
      rest
    else cs
  | _ => cs

/-- `MarkdownProcessor.generatePath` (src/markdown-processor.ts):
generates a Wiki.js compatible path from the file name. -/
def generatePath (fileName : String) (folderPath : Option String) : String :=
  -- Remove .md extension
  let p0 := if ".md".data.isSuffixOf fileName.data then
      fileName.data.take (fileName.data.length - 3)
    else fileName.data
  -- Convert to lowercase and replace spaces with hyphens
  let p1 := wsRunsTo '-' (lowerChars p0)
  -- Remove date prefixes (YYYY-MM-DD-)
  let p2 := dropDateMarker p1
  -- Remove special characters except hyphens and underscores
  let path := p2.filter (fun c => c.isLower || c.isDigit || c = '-' || c = '_')
  match folderPath with
  | some fp =>
    if fp ≠ "/" then
      let f1 := wsRunsTo '-' (lowerChars fp.data)
      let f2 := f1.filter (fun c => c.isLower || c.isDigit || c = '-' || c = '_' || c = '/')
      let cleanFolderPath := (f2.dropWhile (· = '/')).reverse.dropWhile (· = '/') |>.reverse
      if cleanFolderPath ≠ [] then ⟨cleanFolderPath ++ '/' :: path⟩ else ⟨path⟩
    else ⟨path⟩
  | none => ⟨path⟩

/-! ## Syntax Converter: `MarkdownProcessor` -/

/-- Plugin settings (src/types.ts, `WikiJSSettings`). -/
structure WikiJSSettings where
  wikiUrl : String
  apiToken : String
  defaultTags : List String
  autoConvertLinks : Bool
  preserveObsidianSyntax : Bool
deriving Repr, DecidableEq

/-- The backtick character (used by the inline-tag rewrite). -/
def backquote : Char := Char.ofNat 96

/-- The recognized image extensions of the case-insensitive anchored
regex shared by `convertObsidianLinks` and `convertObsidianImages`. -/
def imageExts : List String :=
  [".png", ".jpg", ".jpeg", ".gif", ".svg", ".webp", ".bmp", ".ico",
   ".tiff", ".tif", ".avif", ".heic", ".heif"]

/-- Case-insensitive test that a double-bracket target ends in a
recognized image extension. -/
def isImageTarget (t : List Char) : Bool :=
  imageExts.any (fun e => e.data.isSuffixOf (lowerChars t))

/-- A parsed double-bracket reference: target, optional pipe caption, and
the number of characters consumed after the opening brackets. -/
structure WikiRef where
  target : List Char
  caption : Option (List Char)
  clen : Nat
deriving Repr, DecidableEq

/-- Parse the body of a double-bracket construct (the characters after
the two opening brackets): a nonempty target over characters other than
closing bracket and pipe, an optional nonempty pipe caption over
characters other than closing bracket, then the two closing brackets.
This is the backtracking-free residue of both double-bracket regexes;
their lazy/greedy difference on the target group is immaterial because
the target cannot cross a pipe or a closing bracket. -/
def wikiRefCore (cs : List Char) : Option WikiRef :=
  let t := cs.takeWhile (fun c => c ≠ ']' && c ≠ '|')
  if t = [] then none
  else
    match cs.drop t.length with
    | '|' :: rest =>
      let cap := rest.takeWhile (fun c => c ≠ ']')
      if cap = [] then none
      else
        match rest.drop cap.length with
        | ']' :: ']' :: _ => some ⟨t, some cap, t.length + 1 + cap.length + 2⟩
        | _ => none
    | ']' :: ']' :: _ => some ⟨t, none, t.length + 2⟩
    | _ => none

/-- One attempted match of the wiki-link rewrite
(`MarkdownProcessor.convertObsidianLinks`): returns the match length, the
raw target, and the replacement.  An image target is returned unchanged
(the literal matched text), exactly as the source callback does. -/
def wikiLinkAt (cs : List Char) : Option (Nat × List Char × List Char) :=
  match cs with
  | '[' :: '[' :: rest =>
    (wikiRefCore rest).map (fun r =>
      let k := 2 + r.clen
      (k, r.target,
        if isImageTarget r.target then cs.take k
        else
          let text := r.caption.getD r.target
          let url := lowerChars (wsRunsTo '-' r.target)
          '[' :: text ++ ']' :: '(' :: '/' :: url ++ [')']))
  | _ => none

def parseWikiLink (_ : Option Char) (cs : List Char) : Option (Nat × List Char) :=
  (wikiLinkAt cs).map (fun x => (x.1, x.2.2))

/-- `MarkdownProcessor.convertObsidianLinks`: convert `[[Link]]` to
`[Link](/link)`, leaving image targets untouched. -/
def convertObsidianLinks (s : String) : String := scanStr parseWikiLink s

/-- One piece of the wiki-link rewrite's traversal: a copied run of
characters, or a matched double-bracket construct recorded as matched
text, raw target and replacement. -/
inductive LinkPiece where
  | copy (cs : List Char)
  | matched (m t r : List Char)
deriving Repr, DecidableEq

/-- The wiki-link rewrite's traversal made explicit: each step either
copies one character or records a match and resumes right after it,
exactly like the rewrite scanner does. -/
def wikiLinkPiecesGo : Nat → List Char → List LinkPiece
  | 0, _ => []
  | _ + 1, [] => []
  | fuel + 1, c :: cs =>
    match wikiLinkAt (c :: cs) with
    | some (k, t, r) =>
      LinkPiece.matched ((c :: cs).take k) t r :: wikiLinkPiecesGo fuel (cs.drop (k - 1))
    | none => LinkPiece.copy [c] :: wikiLinkPiecesGo fuel cs

/-- The decomposition of a text into the pieces the wiki-link rewrite
visits: copied characters and matched double-bracket constructs. -/
def wikiLinkPieces (s : String) : List LinkPiece :=
  wikiLinkPiecesGo (s.data.length + 1) s.data

/-- Reassemble the source text of a piece decomposition (matches
contribute their matched text). -/
def piecesSource : List LinkPiece → List Char
  | [] => []
  | LinkPiece.copy cs :: rest => cs ++ piecesSource rest
  | LinkPiece.matched m _ _ :: rest => m ++ piecesSource rest

/-- Reassemble the rewritten text of a piece decomposition (matches
contribute their replacement). -/
def piecesOutput : List LinkPiece → List Char
  | [] => []
  | LinkPiece.copy cs :: rest => cs ++ piecesOutput rest
  | LinkPiece.matched _ _ r :: rest => r ++ piecesOutput rest

/-- JS `split` on a single separator character. -/
def splitOnChar (sep : Char) : List Char → List (List Char)
  | [] => [[]]
  | c :: cs =>
    if c = sep then [] :: splitOnChar sep cs
    else
      match splitOnChar sep cs with
      | [] => [[c]]
      | p :: ps => (c :: p) :: ps

/-- Replacement text of `MarkdownProcessor.convertObsidianImages` for a
matched image embed: bare file name (last path segment, falling back to
the trimmed target when the segment trims to nothing), whitespace runs to
underscores, lowercased, prefixed by the page path when one is given. -/
def renderImageEmbed (pagePath : Option String) (t : List Char)
    (cap : Option (List Char)) : List Char :=
  let seg := (splitOnChar '/' t).getLastD t
  let fn0 := trimChars seg
  let fileName0 := if fn0 = [] then trimChars t else fn0
  let fileName := lowerChars (wsRunsTo '_' fileName0)
  let imageUrl :=
    match pagePath with
    | some pp =>
      let cleanPath := if pp.data.head? = some '/' then pp.data.drop 1 else pp.data
      if cleanPath ≠ [] then '/' :: cleanPath ++ '/' :: fileName else '/' :: fileName
    | none => '/' :: fileName
  let altText := cap.getD fileName
  '!' :: '[' :: altText ++ ']' :: '(' :: imageUrl ++ [')']

def parseObsidianImage (pagePath : Option String) (_ : Option Char)
    (cs : List Char) : Option (Nat × List Char) :=
  match cs with
  | '!' :: '[' :: '[' :: rest =>
    (wikiRefCore rest).map (fun r =>
      let k := 3 + r.clen
      (k, if isImageTarget r.target then renderImageEmbed pagePath r.target r.caption
          else cs.take k))
  | _ => none

/-- `MarkdownProcessor.convertObsidianImages`: convert `![[image.png]]`
into standard image markup pointing under the page path. -/
def convertObsidianImages (s : String) (pagePath : Option String) : String :=
  scanStr (parseObsidianImage pagePath) s

/-- Characters accepted inside an inline tag: letters, digits,
underscore, slash, hyphen. -/
def tagChar (c : Char) : Bool :=
  c.isAlpha || c.isDigit || c = '_' || c = '/' || c = '-'

/-- One attempted match of the inline-tag regex: either at the very start
of the string (the anchored alternative, with an empty leading group) or
at a whitespace character followed by the hash token.  Returns the match
length, the captured leading character when the whitespace alternative
fired, and the tag body. -/
def tagMatchAt (prev : Option Char) (cs : List Char) :
    Option (Nat × Option Char × List Char) :=
  let afterWs :=
    match cs with
    | w :: '#' :: rest =>
      if jsWs w then
        let tag := rest.takeWhile tagChar
        if tag = [] then none else some (2 + tag.length, some w, tag)
      else none
    | _ => none
  match prev, cs with
  | none, '#' :: rest =>
    let tag := rest.takeWhile tagChar
    if tag = [] then afterWs else some (1 + tag.length, none, tag)
  | _, _ => afterWs

def parseObsidianTag (prev : Option Char) (cs : List Char) :
    Option (Nat × List Char) :=
  (tagMatchAt prev cs).map (fun x =>
    (x.1, (x.2.1.elim [] (fun w => [w])) ++ backquote :: '#' :: x.2.2 ++ [backquote]))

/-- `MarkdownProcessor.convertObsidianTags`: wrap inline hash tags in
inline code. -/
def convertObsidianTags (s : String) : String := scanStr parseObsidianTag s

/-- Line-start test for `m`-flagged anchors: start of string or right
after a newline. -/
def atLineStart (prev : Option Char) : Bool :=
  match prev with
  | none => true
  | some c => c = '\n'

def wordChar (c : Char) : Bool := c.isAlpha || c.isDigit || c = '_'

/-- Length of the callout body: the maximal run of lines starting with a
quote mark (each line consumed together with its newline when present). -/
def calloutBodyLen : Nat → List Char → Nat
  | 0, _ => 0
  | fuel + 1, cs =>
    match cs with
    | '>' :: rest =>
      let line := lineRest rest
      match rest.drop line.length with
      | '\n' :: rest2 => 2 + line.length + calloutBodyLen fuel rest2
      | _ => 1 + line.length
    | _ => 0

def parseQuoteMark (prev : Option Char) (cs : List Char) :
    Option (Nat × List Char) :=
  if atLineStart prev then
    match cs with
    | '>' :: rest =>
      match rest with
      | c :: _ => if jsWs c then some (2, []) else some (1, [])
      | [] => some (1, [])
    | _ => none
  else none

def capitalizeFirst : List Char → List Char
  | [] => []
  | c :: cs => c.toUpper :: cs

/-- Replacement for a matched callout: bolded title (explicit title or
capitalized kind), an empty quote line, then the body with its quote
marks stripped and re-added with a space. -/
def calloutRepl (ty title body : List Char) : List Char :=
  let cleanBody := scanGo parseQuoteMark (body.length + 1) none body
  let titleText := if trimChars title = [] then capitalizeFirst ty else trimChars title
  "> **".data ++ titleText ++ "**\n>\n".data ++
    List.intercalate "\n".data
      ((splitOnChar '\n' cleanBody).map (fun l => '>' :: ' ' :: l)) ++ ['\n']

def parseObsidianCallout (prev : Option Char) (cs : List Char) :
    Option (Nat × List Char) :=
  if atLineStart prev then
    match cs with
    | '>' :: r0 =>
      let w := r0.takeWhile jsWs
      match r0.drop w.length with
      | '[' :: '!' :: r1 =>
        let ty := r1.takeWhile wordChar
        if ty = [] then none
        else
          match r1.drop ty.length with
          | ']' :: r2 =>
            let title := lineRest r2
            match r2.drop title.length with
            | '\n' :: r3 =>
              let bodyLen := calloutBodyLen r3.length r3
              let body := r3.take bodyLen
              some (1 + w.length + 2 + ty.length + 1 + title.length + 1 + bodyLen,
                calloutRepl ty title body)
            | _ => none
          | _ => none
      | _ => none
    | _ => none
  else none

/-- `MarkdownProcessor.convertObsidianCallouts`: convert callout blocks
to plain quote blocks. -/
def convertObsidianCallouts (s : String) : String := scanStr parseObsidianCallout s

def parseInternalLink (_ : Option Char) (cs : List Char) :
    Option (Nat × List Char) :=
  match cs with
  | '[' :: r0 =>
    let text := r0.takeWhile (fun c => c ≠ ']')
    if text = [] then none
    else
      match r0.drop text.length with
      | ']' :: '(' :: r1 =>
        if beginsWith "http://".data r1 || beginsWith "https://".data r1 then none
        else
          let url := r1.takeWhile (fun c => c ≠ ')')
          if url = [] then none
          else
            match r1.drop url.length with
            | ')' :: _ =>
              let k := 1 + text.length + 2 + url.length + 1
              some (k,
                if url.head? = some '/' then cs.take k
                else '[' :: text ++ ']' :: '(' :: '/' :: url ++ [')'])
            | _ => none
      | _ => none
  | _ => none

/-- `MarkdownProcessor.convertInternalLinks`: root-relativize relative
link targets (absolute and external targets untouched). -/
def convertInternalLinks (s : String) : String := scanStr parseInternalLink s

/-- Strip a leading front-matter block, cleanup flavour (the closing
delimiter must be followed by a newline). -/
def stripFrontMatterBlock (cs : List Char) : List Char :=
  if beginsWith "---\n".data cs then
    match findSub "\n---\n".data (cs.drop 4) with
    | some i => cs.drop (4 + i + 5)
    | none => cs
  else cs

/-- Index of the last newline in a character list, if any. -/
def lastNlPos : List Char → Option Nat
  | [] => none
  | c :: cs =>
    match lastNlPos cs with
    | some i => some (i + 1)
    | none => if c = '\n' then some 0 else none

/-- One attempted match of the empty-callout-header removal: a line-start
quote mark, whitespace, a bracketed bang marker, then whitespace up to a
line end (when the trailing whitespace run stops before end of input the
match ends at the run's last newline, the greedy backtracking residue of
the anchored trailing whitespace). -/
def parseEmptyCalloutLine (prev : Option Char) (cs : List Char) :
    Option (Nat × List Char) :=
  if atLineStart prev then
    match cs with
    | '>' :: r0 =>
      let w := r0.takeWhile jsWs
      match r0.drop w.length with
      | '[' :: '!' :: r1 =>
        let inner := r1.takeWhile (fun c => c ≠ ']')
        match r1.drop inner.length with
        | ']' :: r2 =>
          let w2 := r2.takeWhile jsWs
          let base := 1 + w.length + 2 + inner.length + 1
          if r2.drop w2.length = [] then some (base + w2.length, [])
          else
            match lastNlPos w2 with
            | some p => some (base + p, [])
            | none => none
        | _ => none
      | _ => none
    | _ => none
  else none

/-- Collapse three or more consecutive newlines to exactly two. -/
def parseNlRun (_ : Option Char) (cs : List Char) : Option (Nat × List Char) :=
  match cs with
  | '\n' :: '\n' :: '\n' :: _ => some ((cs.takeWhile (fun c => c = '\n')).length, "\n\n".data)
  | _ => none

/-- `MarkdownProcessor.cleanupObsidianSyntax`: strip front matter, remove
empty callout header lines, collapse newline runs. -/
def cleanupObsidianSyntax (s : String) : String :=
  let c1 := stripFrontMatterBlock s.data
  let c2 := scanGo parseEmptyCalloutLine (c1.length + 1) none c1
  ⟨scanGo parseNlRun (c2.length + 1) none c2⟩

/-- One attempted match of the title heading (hash, whitespace, rest of
line) at a line start; when the whitespace run swallows the rest of the
input the greedy backtracking residue is its last non-newline character. -/
def headingAt (cs : List Char) : Option (List Char) :=
  match cs with
  | '#' :: r0 =>
    let w := r0.takeWhile jsWs
    if w = [] then none
    else
      match r0.drop w.length with
      | [] =>
        match w.getLast? with
        | some c => if c ≠ '\n' then some [c] else none
        | none => none
      | e => some (lineRest e)
  | _ => none

/-- First line start where `tryAt` matches. -/
def findAtLineStarts (tryAt : List Char → Option α) :
    Nat → Option Char → List Char → Option α
  | 0, _, _ => none
  | _ + 1, _, [] => none
  | fuel + 1, prev, c :: cs =>
    if atLineStart prev then
      match tryAt (c :: cs) with
      | some g => some g
      | none => findAtLineStarts tryAt fuel (some c) cs
    else findAtLineStarts tryAt fuel (some c) cs

/-- `MarkdownProcessor.extractTitle`: first heading, else file name with
extension and date marker stripped. -/
def extractTitle (content fileName : String) : String :=
  match findAtLineStarts headingAt (content.data.length + 1) none content.data with
  | some g => jsTrim ⟨g⟩
  | none =>
    let p0 := if ".md".data.isSuffixOf fileName.data then
        fileName.data.take (fileName.data.length - 3)
      else fileName.data
    ⟨dropDateMarker p0⟩

/-- Collect the payloads of every match of an unanchored pattern,
resuming after each match like a global regex. -/
def collectGo (pat : List Char → Option (Nat × α)) : Nat → List Char → List α
  | 0, _ => []
  | _ + 1, [] => []
  | fuel + 1, c :: cs =>
    match pat (c :: cs) with
    | some (k, x) => x :: collectGo pat fuel (cs.drop (k - 1))
    | none => collectGo pat fuel cs

/-- Standard markdown image pattern: bang, bracketed alt (possibly
empty), parenthesized nonempty url.  Payload is the url. -/
def imgPat1At (cs : List Char) : Option (Nat × List Char) :=
  match cs with
  | '!' :: '[' :: r0 =>
    let alt := r0.takeWhile (fun c => c ≠ ']')
    match r0.drop alt.length with
    | ']' :: '(' :: r1 =>
      let url := r1.takeWhile (fun c => c ≠ ')')
      if url = [] then none
      else
        match r1.drop url.length with
        | ')' :: _ => some (2 + alt.length + 2 + url.length + 1, url)
        | _ => none
    | _ => none
  | _ => none

/-- Index of the last dot in a character list, if any. -/
def lastDotPos : List Char → Option Nat
  | [] => none
  | c :: cs =>
    match lastDotPos cs with
    | some i => some (i + 1)
    | none => if c = '.' then some 0 else none

/-- Extension-splitting embed pattern: the greedy target group gives back
everything from its last dot on, so the payload (group 1) is the target
run cut at its last dot, which must leave a nonempty head; the rest of
the match runs to the first closing bracket, which must be doubled. -/
def imgPat2At (cs : List Char) : Option (Nat × List Char) :=
  match cs with
  | '!' :: '[' :: '[' :: full =>
    let r := full.takeWhile (fun c => c ≠ ']' && c ≠ '|')
    if r = [] then none
    else
      match lastDotPos r with
      | some i =>
        if i = 0 then none
        else
          let j := (full.takeWhile (fun c => c ≠ ']')).length
          match full.drop j with
          | ']' :: ']' :: _ => some (3 + j + 2, r.take i)
          | _ => none
      | none => none
  | _ => none

/-- Captioned embed pattern: target, pipe, caption, double closing
bracket.  Payload is the target. -/
def imgPat3At (cs : List Char) : Option (Nat × List Char) :=
  match cs with
  | '!' :: '[' :: '[' :: full =>
    match wikiRefCore full with
    | some r =>
      match r.caption with
      | some _ => some (3 + r.clen, r.target)
      | none => none
    | none => none
  | _ => none

def quoteCh (c : Char) : Bool := c = '"' || c = '\''

/-- Try the source-attribute candidates of the inline image-tag pattern
in descending position order (greedy left part). -/
def imgTagTry (full : List Char) : List Nat → Option (Nat × List Char)
  | [] => none
  | i :: rest =>
    let grp := (full.drop (i + 5)).takeWhile (fun c => !quoteCh c)
    if grp = [] then imgTagTry full rest
    else
      match (full.drop (i + 5)).drop grp.length with
      | q :: r2 =>
        if quoteCh q then
          let t2 := r2.takeWhile (fun c => c ≠ '>')
          match r2.drop t2.length with
          | '>' :: _ => some (4 + i + 5 + grp.length + 1 + t2.length + 1, grp)
          | _ => imgTagTry full rest
        else imgTagTry full rest
      | [] => imgTagTry full rest

/-- Inline image-tag pattern: opening tag name, at least one non-closing
character, a source attribute with quoted nonempty value, then the tag
close.  Payload is the attribute value. -/
def imgPat4At (cs : List Char) : Option (Nat × List Char) :=
  match cs with
  | '<' :: 'i' :: 'm' :: 'g' :: full =>
    let a := full.takeWhile (fun c => c ≠ '>')
    let cands := ((List.range a.length).filter (fun i =>
      1 ≤ i && beginsWith "src=".data (a.drop i) &&
      (a.drop (i + 4)).head?.elim false quoteCh)).reverse
    imgTagTry full cands
  | _ => none

/-- `MarkdownProcessor.normalizeImagePath`. -/
def normalizeImagePath (p : List Char) : List Char :=
  let p1 := trimChars p
  let p2 := p1.map (fun c => if c = '\\' then '/' else c)
  let p3 := if p2.head? = some '/' then p2.drop 1 else p2
  let p4 := if beginsWith "./".data p3 then p3.drop 2 else p3
  let p5 := p4.takeWhile (fun c => c ≠ '?')
  p5.takeWhile (fun c => c ≠ '#')

/-- An extracted image reference: bare file name and raw path. -/
structure ImageRef where
  name : String
  path : String
deriving Repr, DecidableEq

/-- Last path segment, falling back to the whole path when empty. -/
def lastSegOr (p : List Char) : List Char :=
  let seg := (splitOnChar '/' p).getLastD p
  if seg = [] then p else seg

/-- Deduplicating collection loop of `extractImages`: skip external
references, normalize, skip already-seen normalized paths. -/
def extractImagesGo : List (List Char) → List String → List ImageRef
  | [], _ => []
  | p :: rest, seen =>
    if beginsWith "http://".data p || beginsWith "https://".data p ||
       beginsWith "data:".data p then
      extractImagesGo rest seen
    else
      let np : String := ⟨normalizeImagePath p⟩
      if np ∈ seen then extractImagesGo rest seen
      else ⟨⟨lastSegOr np.data⟩, np⟩ :: extractImagesGo rest (np :: seen)

/-- `MarkdownProcessor.extractImages`: run the four accepted notations
over the original text, then deduplicate by normalized path. -/
def extractImages (content : String) : List ImageRef :=
  let n := content.data.length + 1
  let raw := collectGo imgPat1At n content.data ++ collectGo imgPat2At n content.data ++
    collectGo imgPat3At n content.data ++ collectGo imgPat4At n content.data
  extractImagesGo raw []

/-! ## Tag/Frontmatter Extractor: `MarkdownProcessor.extractTags` -/

/-- Front-matter block in the `extractTags` flavour: the leading
delimiter line, then the lazily-shortest body up to a closing delimiter
(no trailing newline required). -/
def fmYaml (cs : List Char) : Option (List Char) :=
  if beginsWith "---\n".data cs then
    (findSub "\n---".data (cs.drop 4)).map (fun i => (cs.drop 4).take i)
  else none

/-- Bracketed tags line: `tags:`, whitespace, an opening bracket, then a
dot-all lazy group closed by a bracket at the line end.  The group cannot
cross a newline, so it matches exactly when the rest of the line ends
with a closing bracket. -/
def tagsLine1At (cs : List Char) : Option (List Char) :=
  if beginsWith "tags:".data cs then
    let r0 := cs.drop 5
    let w := r0.takeWhile jsWs
    match r0.drop w.length with
    | '[' :: r1 =>
      let line := lineRest r1
      match line.getLast? with
      | some ']' => some line.dropLast
      | _ => none
    | _ => none
  else none

/-- Scalar tags line: `tags:`, whitespace, then at least one non-newline
character up to the line end.  When the greedy whitespace run swallows
the rest of the line, backtracking leaves its last non-newline character
as the captured group. -/
def tagsLine2At (cs : List Char) : Option (List Char) :=
  if beginsWith "tags:".data cs then
    let r0 := cs.drop 5
    let w := r0.takeWhile jsWs
    match r0.drop w.length with
    | [] =>
      match w.getLast? with
      | some c => if c ≠ '\n' then some [c] else none
      | none => none
    | e => some (lineRest e)
  else none

/-- One match of the quoted-array-item pattern: an optional quote, a
nonempty run of characters that are neither quotes nor commas, an
optional quote.  Payload is the full matched text. -/
def arrayTagAt (cs : List Char) : Option (Nat × List Char) :=
  match cs with
  | c :: rest =>
    if quoteCh c then
      let body := rest.takeWhile (fun x => !quoteCh x && x ≠ ',')
      if body = [] then none
      else
        let k := 1 + body.length +
          (if (rest.drop body.length).head?.elim false quoteCh then 1 else 0)
        some (k, cs.take k)
    else
      let body := cs.takeWhile (fun x => !quoteCh x && x ≠ ',')
      if body = [] then none
      else
        let k := body.length +
          (if (cs.drop body.length).head?.elim false quoteCh then 1 else 0)
        some (k, cs.take k)
  | [] => none

/-- Split a matched `tags:` value into tag strings: the bracket-bearing
branch collects quoted items, strips quote characters and trims; the
scalar branch splits on commas and trims. -/
def tagsFromTagString (ts : List Char) : List String :=
  if '[' ∈ ts then
    (collectGo arrayTagAt (ts.length + 1) ts).map
      (fun m => jsTrim ⟨m.filter (fun c => !quoteCh c)⟩)
  else (splitOnChar ',' ts).map (fun l => jsTrim ⟨l⟩)

/-- Tags contributed by the front-matter block, in order, not
deduplicated. -/
def frontMatterTags (content : String) : List String :=
  match fmYaml content.data with
  | some yaml =>
    match findAtLineStarts tagsLine1At (yaml.length + 1) none yaml with
    | some ts => tagsFromTagString ts
    | none =>
      match findAtLineStarts tagsLine2At (yaml.length + 1) none yaml with
      | some ts => tagsFromTagString ts
      | none => []
  | none => []

/-- The inline hash tokens of the content, in document order (the trimmed
matched text with its hash removed). -/
def inlineTagsGo : Nat → Option Char → List Char → List String
  | 0, _, _ => []
  | _ + 1, _, [] => []
  | fuel + 1, prev, c :: cs =>
    match tagMatchAt prev (c :: cs) with
    | some (k, _, tag) =>
      (⟨tag⟩ : String) :: inlineTagsGo fuel (some (((c :: cs).take k).getLastD c)) (cs.drop (k - 1))
    | none => inlineTagsGo fuel (some c) cs

def inlineTags (content : String) : List String :=
  inlineTagsGo (content.data.length + 1) none content.data

/-- `MarkdownProcessor.extractTags`: front-matter tags first, then inline
tags not already present, finally dropping empties. -/
def extractTags (content : String) : List String :=
  let tags := (inlineTags content).foldl
    (fun acc t => if t ∈ acc then acc else acc ++ [t]) (frontMatterTags content)
  tags.filter (fun t => 0 < t.length)

/-- Result record of `MarkdownProcessor.processMarkdown`. -/
structure ProcessedMarkdown where
  content : String
  title : String
  images : List ImageRef
deriving Repr, DecidableEq

/-- `MarkdownProcessor.processMarkdown`: the full conversion pipeline. -/
def processMarkdown (settings : WikiJSSettings) (content fileName : String)
    (pagePath : Option String) : ProcessedMarkdown :=
  let title := extractTitle content fileName
  let images := extractImages content
  let pc1 :=
    if !settings.preserveObsidianSyntax then
      convertObsidianCallouts (convertObsidianTags
        (convertObsidianImages (convertObsidianLinks content) pagePath))
    else content
  let pc2 := if settings.autoConvertLinks then convertInternalLinks pc1 else pc1
  let pc3 := cleanupObsidianSyntax pc2
  ⟨jsTrim pc3, title, images⟩

/-! ## Remote page mutations: `WikiJSAPI.createPage` / `updatePage` -/

/-- Outcome of one GraphQL round trip as `makeGraphQLRequest` sees it:
the response body fails to parse, the transport reports a non-OK status,
the remote reports errors, or data comes back.  The request payload
itself is abstracted into the outcome. -/
inductive GraphQLOutcome (α : Type) where
  | parseFailure (msg : String)
  | httpNotOk (status : Nat) (body : String)
  | remoteErrors (msgs : List String)
  | payload (d : α)
deriving Repr, DecidableEq

/-- `WikiJSAPI.makeGraphQLRequest`: parse the body (throwing on a parse
failure), throw on a non-OK status, throw on a remote error list
(concatenating the messages), otherwise return the data. -/
def makeGraphQLRequest : GraphQLOutcome α → Except String α
  | .parseFailure msg => .error msg
  | .httpNotOk status body =>
    .error ("HTTP error! status: " ++ toString status ++ ", message: " ++ body)
  | .remoteErrors msgs => .error ("GraphQL error: " ++ String.intercalate ", " msgs)
  | .payload d => .ok d

/-- `responseResult` of a Wiki.js mutation (src/types.ts). -/
structure ResponseResult where
  succeeded : Bool
  errorCode : Nat
  slug : String
  message : String
deriving Repr, DecidableEq

/-- The page part of a mutation response (src/types.ts). -/
structure PageInfo where
  id : Nat
  path : String
  title : String
deriving Repr, DecidableEq

/-- Payload of `pages.create` / `pages.update` (src/types.ts). -/
structure PageMutationData where
  responseResult : ResponseResult
  page : PageInfo
deriving Repr, DecidableEq

/-- `UploadResult` (src/types.ts). -/
structure UploadResult where
  success : Bool
  message : String
  pageId : Option Nat := none
  pageUrl : Option String := none
deriving Repr, DecidableEq

/-- The tag list `createPage` sends: the argument, else the configured
default tags, filtered to those that are truthy and trim to something. -/
def createPageTags (settings : WikiJSSettings) (tags : Option (List String)) :
    List String :=
  (tags.getD settings.defaultTags).filter (fun t => t ≠ "" && jsTrim t ≠ "")

/-- Body of `WikiJSAPI.createPage`'s try block. -/
def createPageBody (settings : WikiJSSettings) (path : String)
    (outcome : GraphQLOutcome PageMutationData) : Except String UploadResult := do
  let result ← makeGraphQLRequest outcome
  if result.responseResult.succeeded then
    pure ⟨true, "Page created successfully", some result.page.id,
      some (settings.wikiUrl ++ "/" ++ path)⟩
  else
    pure ⟨false,
      if result.responseResult.message = "" then "Unknown error occurred"
      else result.responseResult.message, none, none⟩

/-- Body of `WikiJSAPI.updatePage`'s try block. -/
def updatePageBody (settings : WikiJSSettings) (path : String)
    (outcome : GraphQLOutcome PageMutationData) : Except String UploadResult := do
  let result ← makeGraphQLRequest outcome
  if result.responseResult.succeeded then
    pure ⟨true, "Page updated successfully", some result.page.id,
      some (settings.wikiUrl ++ "/" ++ path)⟩
  else
    pure ⟨false,
      if result.responseResult.message = "" then "Unknown error occurred"
      else result.responseResult.message, none, none⟩

/-- A JavaScript try/catch around a computation that produces an
`UploadResult`: the handler converts the thrown error into a result. -/
def exceptCaught (body : Except String UploadResult)
    (handler : String → UploadResult) : Except String UploadResult :=
  match body with
  | .ok u => .ok u
  | .error e => .ok (handler e)

/-- `WikiJSAPI.createPage`: the mutation body wrapped in its catch. -/
def createPage (settings : WikiJSSettings) (path : String)
    (outcome : GraphQLOutcome PageMutationData) : Except String UploadResult :=
  exceptCaught (createPageBody settings path outcome)
    (fun e => ⟨false, "Error creating page: " ++ e, none, none⟩)

/-- `WikiJSAPI.updatePage`: the mutation body wrapped in its catch. -/
def updatePage (settings : WikiJSSettings) (path : String)
    (outcome : GraphQLOutcome PageMutationData) : Except String UploadResult :=
  exceptCaught (updatePageBody settings path outcome)
    (fun e => ⟨false, "Error updating page: " ++ e, none, none⟩)

/-! ## Asset Folder Materializer: `WikiJSAPI.ensureAssetFolderPath` -/

/-- Result of `WikiJSAPI.createAssetFolder` (already including the
client-side re-query for the new folder's id). -/
structure CreateFolderResult where
  succeeded : Bool
  folderId : Option Nat
  message : Option String := none
deriving Repr, DecidableEq

/-- The remote folder collaborator `ensureAssetFolderPath` talks to,
threading an abstract store state through the find-by-name query and the
create-folder mutation. -/
structure FolderRemote (σ : Type) where
  find : σ → Nat → String → Option Nat × σ
  create : σ → Nat → String → CreateFolderResult × σ

/-- JavaScript truthiness of a `number | null` folder id. -/
def truthyId : Option Nat → Bool
  | some n => n ≠ 0
  | none => false

/-- One iteration of the `ensureAssetFolderPath` loop: query by name; on
a hit descend; otherwise create, and when the creation does not yield a
usable id re-query once, keeping the current parent if that also
misses. -/
def ensureStep (R : FolderRemote σ) (st : σ) (cur : Nat) (seg : String) :
    Nat × σ :=
  let q1 := R.find st cur seg
  if truthyId q1.1 then (q1.1.getD 0, q1.2)
  else
    let cr := R.create q1.2 cur seg
    if cr.1.succeeded && truthyId cr.1.folderId then (cr.1.folderId.getD 0, cr.2)
    else
      let q2 := R.find cr.2 cur seg
      if truthyId q2.1 then (q2.1.getD 0, q2.2) else (cur, q2.2)

def ensureGo (R : FolderRemote σ) : List String → Nat → σ → Nat × σ
  | [], cur, st => (cur, st)
  | seg :: rest, cur, st =>
    let s := ensureStep R st cur seg
    ensureGo R rest s.1 s.2

/-- The folder segments of a page path: split on slashes, keep the parts
that trim to something, drop the final segment (the page name). -/
def folderSegs (path : String) : List String :=
  (((splitOnChar '/' path.data).map (fun l => (⟨l⟩ : String))).filter
    (fun p => jsTrim p ≠ "")).dropLast

/-- `WikiJSAPI.ensureAssetFolderPath`: materialize the folder hierarchy
for a page path, starting at the root folder (id 0). -/
def ensureAssetFolderPath (R : FolderRemote σ) (st : σ) (path : String) :
    Nat × σ :=
  ensureGo R (folderSegs path) 0 st

/-- A remote asset folder (id, parent, slug and display name). -/
structure AssetFolder where
  id : Nat
  parentId : Nat
  slug : String
  name : String
deriving Repr, DecidableEq

/-- Modelled from the spec: the remote folder store is a tree keyed by
(parent identifier, slug), folders are created lazily and never deleted,
and slug uniqueness is enforced per parent (spec §3, RemoteFolderNode).
`nextId` is the next remote-assigned identifier. -/
structure FolderStore where
  folders : List AssetFolder
  nextId : Nat
deriving Repr, DecidableEq

/-- `WikiJSAPI.getAssetFolders` against the deterministic store: the
children of a parent, in creation order. -/
def getAssetFolders (st : FolderStore) (parentFolderId : Nat) : List AssetFolder :=
  st.folders.filter (fun f => f.parentId = parentFolderId)

/-- `WikiJSAPI.findFolderIdByName`: first child of the parent whose slug
or name matches. -/
def findFolderIdByName (st : FolderStore) (parentFolderId : Nat)
    (folderName : String) : Option Nat :=
  ((getAssetFolders st parentFolderId).find?
    (fun f => f.slug = folderName || f.name = folderName)).map (fun f => f.id)

/-- `WikiJSAPI.createAssetFolder` against the deterministic store: the
remote create succeeds exactly when no child of the parent carries the
slug (per-parent slug uniqueness, spec §3), appending a fresh folder;
on success the client re-queries for the new folder's id, converting a
zero or missing id to `none`. -/
def createAssetFolder (st : FolderStore) (parentFolderId : Nat) (slug : String) :
    CreateFolderResult × FolderStore :=
  if (findFolderIdByName st parentFolderId slug).isSome then
    (⟨false, none, some "Folder already exists"⟩, st)
  else
    let st2 : FolderStore :=
      ⟨st.folders ++ [⟨st.nextId, parentFolderId, slug, slug⟩], st.nextId + 1⟩
    let fid := findFolderIdByName st2 parentFolderId slug
    (⟨true, if fid.getD 0 = 0 then none else fid, none⟩, st2)

/-- The deterministic store as a `FolderRemote`. -/
def storeRemote : FolderRemote FolderStore :=
  ⟨fun st p n => (findFolderIdByName st p n, st), createAssetFolder⟩

/-- A scripted remote whose responses are popped from two queues; used
to drive the loop through the failure branches a live store cannot
produce deterministically (a simulated concurrent-creation race). -/
structure ScriptedStore where
  findQueue : List (Option Nat)
  createQueue : List CreateFolderResult
deriving Repr, DecidableEq

def scriptedRemote : FolderRemote ScriptedStore :=
  ⟨fun st _ _ => (st.findQueue.headD none, ⟨st.findQueue.tail, st.createQueue⟩),
   fun st _ _ => (st.createQueue.headD ⟨false, none, none⟩, ⟨st.findQueue, st.createQueue.tail⟩)⟩

/-! ## Image Reference Resolver: `ImageTagProcessor.resolveImageFiles` -/

/-- A concrete vault file (the `TFile` fields the upload path uses). -/
structure VFile where
  path : String
  name : String
deriving Repr, DecidableEq

/-- JS `Map.set`: overwrite the existing binding in place, else append
(keys are unique, so replacing the first binding is the map update). -/
def mapSet : List (String × VFile) → String → VFile → List (String × VFile)
  | [], k, v => [(k, v)]
  | e :: rest, k, v => if e.1 = k then (k, v) :: rest else e :: mapSet rest k v

/-- JS `Map.get`. -/
def mapGet : List (String × VFile) → String → Option VFile
  | [], _ => none
  | e :: rest, k => if e.1 = k then some e.2 else mapGet rest k

/-- `ImageTagProcessor.resolveImageFiles`: resolve each reference of the
batch through the per-reference resolver (`resolveImageFile`, abstracted
as a function of the reference path since it only consults the
out-of-scope host application), recording an entry exactly when a file
is found and merely warning otherwise. -/
def resolveImageFiles (resolveImageFile : String → Option VFile)
    (images : List ImageRef) : List (String × VFile) :=
  images.foldl (fun m image =>
    match resolveImageFile image.path with
    | some file => mapSet m image.path file
    | none => m) []

/-! ## Upload Orchestrator: `UploadModal.uploadImages` / `performUpload` -/

/-- Observable events of one upload attempt, in order. -/
inductive UploadEvent where
  | folderPrepared (folderId : Nat)
  | imageUploaded (name : String)
  | imageFailed (name : String) (msg : String)
  | imageNotFound (name : String)
  | pageMutated (isUpdate : Bool) (success : Bool)
deriving Repr, DecidableEq

/-- One iteration of the `uploadImages` loop: look the reference up in
the batch map; read and upload inside the per-image try, reporting
rather than propagating a failure; report a missing file. -/
def uploadImageOne (fileMap : List (String × VFile))
    (readUpload : VFile → Except String String) (image : ImageRef) : UploadEvent :=
  match mapGet fileMap image.path with
  | some file =>
    match readUpload file with
    | .ok _ => .imageUploaded file.name
    | .error e => .imageFailed image.name e
  | none => .imageNotFound image.name

def uploadImagesGo (fileMap : List (String × VFile))
    (readUpload : VFile → Except String String) : List ImageRef → List UploadEvent
  | [] => []
  | image :: rest =>
    uploadImageOne fileMap readUpload image :: uploadImagesGo fileMap readUpload rest

/-- `UploadModal.uploadImages`: prepare the asset folder first (degrading
to the root folder when that fails), resolve the whole batch, then walk
the images one at a time. -/
def uploadImages (ensure : Except String Nat)
    (resolveImageFile : String → Option VFile)
    (readUpload : VFile → Except String String)
    (images : List ImageRef) : List UploadEvent :=
  let targetFolderId := match ensure with | .ok i => i | .error _ => 0
  let fileMap := resolveImageFiles resolveImageFile images
  .folderPrepared targetFolderId :: uploadImagesGo fileMap readUpload images

/-- Result of one `performUpload` attempt: the ordered events and the
page mutation's result (none when the attempt stops before mutating). -/
structure UploadRun where
  events : List UploadEvent
  result : Option UploadResult
deriving Repr, DecidableEq

/-- `UploadModal.performUpload`: validate the inputs, check for an
existing page (the lookup's own failures are already caught to `none`)
and ask for confirmation, reprocess the markdown with the final path,
upload the images, then issue the create-or-update mutation; the page
identifiers are `Nat`s here so the not-a-number guard of the source
cannot fire.  `mutate` stands for the `createPage` / `updatePage` round
trip, which never throws (see `createPage`). -/
def performUpload (settings : WikiJSSettings)
    (pathInput titleInput content fileName : String)
    (images : List ImageRef)
    (existingPage : Option Nat) (confirm : Bool)
    (ensure : Except String Nat)
    (resolveImageFile : String → Option VFile)
    (readUpload : VFile → Except String String)
    (mutate : Bool → String → UploadResult) : UploadRun :=
  if jsTrim pathInput = "" then ⟨[], none⟩
  else if jsTrim titleInput = "" then ⟨[], none⟩
  else if existingPage.isSome && !confirm then ⟨[], none⟩
  else
    let processedContent :=
      (processMarkdown settings content fileName (some (jsTrim pathInput))).content
    let imgEvents :=
      if 0 < images.length then uploadImages ensure resolveImageFile readUpload images
      else []
    let isUpdate := existingPage.isSome
    let result := mutate isUpdate processedContent
    ⟨imgEvents ++ [.pageMutated isUpdate result.success], some result⟩

/-! ## Code-derived construct predicates

"The text contains a construct" is read off the code: the corresponding
rewrite regex matches somewhere in the text. -/

/-- The text contains a double-bracket wiki-link construct. -/
def hasWikiLink (s : String) : Bool := scanHas parseWikiLink none s.data

/-- The text contains a double-bracket image-embed construct. -/
def hasImageEmbed (s : String) : Bool :=
  scanHas (parseObsidianImage none) none s.data

/-- The text contains an inline hash tag. -/
def hasInlineTag (s : String) : Bool := scanHas parseObsidianTag none s.data

/-- The text contains an admonition (callout) block. -/
def hasCalloutBlock (s : String) : Bool :=
  scanHas parseObsidianCallout none s.data

/-- The text contains a bare admonition header line (removed by the
cleanup stage). -/
def hasEmptyCalloutHeader (s : String) : Bool :=
  scanHas parseEmptyCalloutLine none s.data

/-- No recognized source-dialect construct at all: no wiki-style links,
no image embeds, no inline hash tags, no admonition blocks (neither full
blocks nor bare header lines). -/
def noSourceConstructs (s : String) : Prop :=
  hasWikiLink s = false ∧ hasImageEmbed s = false ∧ hasInlineTag s = false ∧
    hasCalloutBlock s = false ∧ hasEmptyCalloutHeader s = false

instance (s : String) : Decidable (noSourceConstructs s) := by
  unfold noSourceConstructs
  infer_instance

/-- Front-matter stripping followed by newline-run collapsing: the two
transformations the cleanup stage applies beyond the converters. -/
def stripThenCollapse (s : String) : String :=
  let c1 := stripFrontMatterBlock s.data
  ⟨scanGo parseNlRun (c1.length + 1) none c1⟩

/-- Well-formedness of a remote folder store: identifiers are
remote-assigned and nonzero (0 denotes the root), and the next fresh
identifier is nonzero. -/
def storeInv (st : FolderStore) : Prop :=
  0 < st.nextId ∧ ∀ f ∈ st.folders, f.id ≠ 0

instance (st : FolderStore) : Decidable (storeInv st) := by
  unfold storeInv
  infer_instance

/-! ## Supporting lemmas -/

theorem mapGet_mapSet_self (m : List (String × VFile)) (k : String) (v : VFile) :
    mapGet (mapSet m k v) k = some v := by
  induction m with
  | nil => simp [mapSet, mapGet]
  | cons e rest ih =>
    by_cases h : e.1 = k <;> simp [mapSet, mapGet, h, ih]

theorem mapGet_mapSet_other (m : List (String × VFile)) (k : String) (v : VFile)
    (q : String) (h : q ≠ k) : mapGet (mapSet m k v) q = mapGet m q := by
  have h' : ¬(k = q) := fun hh => h hh.symm
  induction m with
  | nil => simp [mapSet, mapGet, h']
  | cons e rest ih =>
    by_cases he : e.1 = k
    · subst he
      simp [mapSet, mapGet, h']
    · simp only [mapSet, if_neg he]
      by_cases hq : e.1 = q <;> simp [mapGet, hq, ih]

theorem resolveImageFilesGo_get (resolve : String → Option VFile) (p : String) :
    ∀ (images : List ImageRef) (acc : List (String × VFile)),
    mapGet (images.foldl (fun m image =>
      match resolve image.path with
      | some file => mapSet m image.path file
      | none => m) acc) p
    = if (∃ i ∈ images, i.path = p) ∧ (resolve p).isSome = true then resolve p
      else mapGet acc p := by
  intro images
  induction images with
  | nil => intro acc; simp
  | cons img rest ih =>
    intro acc
    simp only [List.foldl_cons]
    rw [ih]
    by_cases hrest : (∃ i ∈ rest, i.path = p) ∧ (resolve p).isSome = true
    · rw [if_pos hrest]
      rcases hrest with ⟨⟨i0, hm, hp0⟩, hsome⟩
      rw [if_pos ⟨⟨i0, List.mem_cons_of_mem _ hm, hp0⟩, hsome⟩]
    · rw [if_neg hrest]
      by_cases himg : img.path = p
      · rw [himg]
        cases hres : resolve p with
        | some file =>
          simp only [hres]
          rw [if_pos ⟨⟨img, List.mem_cons_self img rest, himg⟩, by simp [hres]⟩]
          rw [mapGet_mapSet_self]
        | none =>
          simp only [hres]
          rw [if_neg (fun hc => by simp [hres] at hc)]
      · cases hres : resolve img.path with
        | some file =>
          simp only [hres]
          rw [mapGet_mapSet_other _ _ _ _ (fun hh => himg hh.symm)]
          rw [if_neg (fun hc => ?_)]
          rcases hc with ⟨⟨i0, hm, hp0⟩, hsome⟩
          rcases List.mem_cons.mp hm with rfl | hm'
          · exact himg hp0
          · exact hrest ⟨⟨i0, hm', hp0⟩, hsome⟩
        | none =>
          simp only [hres]
          rw [if_neg (fun hc => ?_)]
          rcases hc with ⟨⟨i0, hm, hp0⟩, hsome⟩
          rcases List.mem_cons.mp hm with rfl | hm'
          · exact himg hp0
          · exact hrest ⟨⟨i0, hm', hp0⟩, hsome⟩

theorem uploadImagesGo_eq_map (fileMap : List (String × VFile))
    (readUpload : VFile → Except String String) (images : List ImageRef) :
    uploadImagesGo fileMap readUpload images
      = images.map (uploadImageOne fileMap readUpload) := by
  induction images with
  | nil => rfl
  | cons i rest ih => simp [uploadImagesGo, ih]

theorem foldl_dedup (l : List String) : ∀ init : List String,
    ∃ add, l.foldl (fun acc t => if t ∈ acc then acc else acc ++ [t]) init
        = init ++ add ∧ add.Nodup ∧ ∀ t ∈ add, t ∉ init := by
  induction l with
  | nil => intro init; exact ⟨[], by simp⟩
  | cons t rest ih =>
    intro init
    by_cases h : t ∈ init
    · obtain ⟨add, heq, hnd, hni⟩ := ih init
      exact ⟨add, by simpa [h] using heq, hnd, hni⟩
    · obtain ⟨add, heq, hnd, hni⟩ := ih (init ++ [t])
      refine ⟨t :: add, ?_, ?_, ?_⟩
      · simpa [h] using heq
      · refine List.nodup_cons.mpr ⟨fun hm => ?_, hnd⟩
        have := hni t hm
        simp at this
      · intro x hx
        rcases List.mem_cons.mp hx with rfl | hx'
        · exact h
        · intro hxi
          exact hni x hx' (by simp [hxi])

theorem or_false_right {a b : Bool} (h : (a || b) = false) : b = false := by
  cases a <;> cases b <;> simp_all

theorem scanHas_false_id
    (parse : Option Char → List Char → Option (Nat × List Char)) :
    ∀ (cs : List Char) (fuel : Nat) (prev : Option Char),
    scanHas parse prev cs = false → scanGo parse fuel prev cs = cs := by
  intro cs
  induction cs with
  | nil => intro fuel prev _; cases fuel <;> rfl
  | cons c cs ih =>
    intro fuel prev h
    cases hp : parse prev (c :: cs) with
    | some v =>
      rw [scanHas, hp] at h
      simp at h
    | none =>
      have h2 : scanHas parse (some c) cs = false := by
        rw [scanHas, hp] at h
        simpa using h
      cases fuel with
      | zero => rfl
      | succ fuel =>
        simp only [scanGo, hp]
        rw [ih fuel (some c) h2]

theorem scanHas_congr
    (p q : Option Char → List Char → Option (Nat × List Char))
    (hpq : ∀ prev cs, (p prev cs).isSome = (q prev cs).isSome) :
    ∀ (cs : List Char) (prev : Option Char),
    scanHas p prev cs = scanHas q prev cs := by
  intro cs
  induction cs with
  | nil => intro prev; rfl
  | cons c cs ih => intro prev; simp only [scanHas, hpq, ih]

theorem parseObsidianImage_isSome (pp : Option String) (prev : Option Char)
    (cs : List Char) :
    (parseObsidianImage pp prev cs).isSome
      = (parseObsidianImage none prev cs).isSome := by
  unfold parseObsidianImage
  split
  · cases wikiRefCore _ <;> rfl
  · rfl

theorem scanHas_false_suffix
    (parse : Option Char → List Char → Option (Nat × List Char)) :
    ∀ (pre : List Char) (suf : List Char) (prev : Option Char) (c : Char),
    scanHas parse prev (pre ++ c :: suf) = false →
    scanHas parse (some c) suf = false := by
  intro pre
  induction pre with
  | nil =>
    intro suf prev c h
    rw [List.nil_append, scanHas] at h
    exact or_false_right h
  | cons x pre ih =>
    intro suf prev c h
    rw [List.cons_append, scanHas] at h
    exact ih suf (some x) c (or_false_right h)

theorem parseEmptyCalloutLine_nl (cs : List Char) :
    parseEmptyCalloutLine (some '\n') cs = parseEmptyCalloutLine none cs := rfl

theorem scanHas_emptyHeader_nl (suf : List Char) :
    scanHas parseEmptyCalloutLine (some '\n') suf
      = scanHas parseEmptyCalloutLine none suf := by
  cases suf with
  | nil => rfl
  | cons c cs => simp only [scanHas, parseEmptyCalloutLine_nl]

theorem beginsWith_ex : ∀ {p l : List Char}, beginsWith p l = true →
    ∃ l', l = p ++ l' := by
  intro p
  induction p with
  | nil => intro l _; exact ⟨l, rfl⟩
  | cons x p ih =>
    intro l h
    cases l with
    | nil => simp [beginsWith] at h
    | cons c cs =>
      rw [beginsWith, Bool.and_eq_true] at h
      obtain ⟨l', rfl⟩ := ih h.2
      obtain rfl : x = c := by simpa using h.1
      exact ⟨l', rfl⟩

theorem findSub_sound : ∀ {l : List Char} {pat : List Char} {i : Nat},
    findSub pat l = some i → beginsWith pat (l.drop i) = true := by
  intro l
  induction l with
  | nil =>
    intro pat i h
    unfold findSub at h
    split at h
    · obtain rfl : (0 : Nat) = i := by simpa using h
      simp_all [beginsWith]
    · simp at h
  | cons c cs ih =>
    intro pat i h
    unfold findSub at h
    split at h
    · obtain rfl : (0 : Nat) = i := by simpa using h
      simp_all
    · rcases Option.map_eq_some'.mp h with ⟨j, hj, rfl⟩
      simpa using ih hj

theorem stripFM_cases (cs : List Char) :
    stripFrontMatterBlock cs = cs ∨
    ∃ pre suf, cs = pre ++ '\n' :: suf ∧ stripFrontMatterBlock cs = suf := by
  unfold stripFrontMatterBlock
  by_cases h4 : beginsWith "---\n".data cs = true
  · rw [if_pos h4]
    cases hf : findSub "\n---\n".data (cs.drop 4) with
    | none => exact Or.inl rfl
    | some i =>
      refine Or.inr ?_
      have hb := findSub_sound hf
      rw [List.drop_drop] at hb
      obtain ⟨rest', hrest⟩ := beginsWith_ex hb
      refine ⟨cs.take (4 + i) ++ ['\n', '-', '-', '-'], rest', ?_, ?_⟩
      · conv_lhs => rw [← List.take_append_drop (4 + i) cs]
        rw [hrest]
        simp
      · show cs.drop (4 + i + 5) = rest'
        have hdd : cs.drop (4 + i + 5) = (cs.drop (4 + i)).drop 5 := by
          rw [List.drop_drop]
        rw [hdd, hrest]
        simp
  · rw [if_neg h4]
    exact Or.inl rfl

theorem stripFM_no_header (cs : List Char)
    (h : scanHas parseEmptyCalloutLine none cs = false) :
    scanHas parseEmptyCalloutLine none (stripFrontMatterBlock cs) = false := by
  rcases stripFM_cases cs with heq | ⟨pre, suf, hdec, heq⟩
  · rw [heq]; exact h
  · rw [heq, ← scanHas_emptyHeader_nl]
    refine scanHas_false_suffix _ pre suf none '\n' ?_
    rw [← hdec]
    exact h

theorem convertObsidianLinks_noMatch_id (s : String)
    (h : hasWikiLink s = false) : convertObsidianLinks s = s := by
  unfold convertObsidianLinks scanStr
  rw [scanHas_false_id parseWikiLink s.data _ none h]

theorem convertObsidianImages_noMatch_id (s : String) (pp : Option String)
    (h : hasImageEmbed s = false) : convertObsidianImages s pp = s := by
  unfold convertObsidianImages scanStr
  have h' : scanHas (parseObsidianImage pp) none s.data = false := by
    rw [scanHas_congr _ _ (parseObsidianImage_isSome pp) s.data none]
    exact h
  rw [scanHas_false_id _ s.data _ none h']

theorem convertObsidianTags_noMatch_id (s : String)
    (h : hasInlineTag s = false) : convertObsidianTags s = s := by
  unfold convertObsidianTags scanStr
  rw [scanHas_false_id parseObsidianTag s.data _ none h]

theorem convertObsidianCallouts_noMatch_id (s : String)
    (h : hasCalloutBlock s = false) : convertObsidianCallouts s = s := by
  unfold convertObsidianCallouts scanStr
  rw [scanHas_false_id parseObsidianCallout s.data _ none h]

theorem cleanupObsidianSyntax_no_header (s : String)
    (h : hasEmptyCalloutHeader s = false) :
    cleanupObsidianSyntax s = stripThenCollapse s := by
  unfold cleanupObsidianSyntax stripThenCollapse
  dsimp only
  rw [scanHas_false_id parseEmptyCalloutLine (stripFrontMatterBlock s.data) _ none
    (stripFM_no_header s.data h)]

theorem take_append_drop_pred (c : Char) (cs : List Char) (k : Nat) (hk : 1 ≤ k) :
    (c :: cs).take k ++ cs.drop (k - 1) = c :: cs := by
  obtain ⟨j, rfl⟩ := Nat.exists_eq_add_of_le hk
  simp only [List.take_succ_cons, Nat.add_comm 1 j, Nat.add_sub_cancel]
  simp [List.take_append_drop]

theorem wikiLinkAt_spec {cs : List Char} {k : Nat} {t r : List Char}
    (h : wikiLinkAt cs = some (k, t, r)) :
    1 ≤ k ∧ (isImageTarget t = true → r = cs.take k) := by
  unfold wikiLinkAt at h
  split at h
  · rcases Option.map_eq_some'.mp h with ⟨ref, _, heq⟩
    simp only [Prod.mk.injEq] at heq
    obtain ⟨hk, ht, hr⟩ := heq
    subst hk
    subst ht
    constructor
    · omega
    · intro himg
      rw [← hr, if_pos himg]
  · exact absurd h (by simp)

theorem piecesSource_wikiLink (fuel : Nat) : ∀ cs : List Char, cs.length < fuel →
    piecesSource (wikiLinkPiecesGo fuel cs) = cs := by
  induction fuel with
  | zero => intro cs h; omega
  | succ fuel ih =>
    intro cs hlen
    cases cs with
    | nil => rfl
    | cons c cs' =>
      cases hw : wikiLinkAt (c :: cs') with
      | none =>
        simp only [wikiLinkPiecesGo, hw, piecesSource]
        rw [ih cs' (by simpa using Nat.lt_of_succ_lt_succ hlen)]
        rfl
      | some v =>
        obtain ⟨k, t, r⟩ := v
        obtain ⟨hk, _⟩ := wikiLinkAt_spec hw
        simp only [wikiLinkPiecesGo, hw, piecesSource]
        rw [ih (cs'.drop (k - 1)) ?hdrop]
        · exact take_append_drop_pred c cs' k hk
        · have := List.length_drop (k - 1) cs'
          simp only [List.length_cons] at hlen
          omega

theorem piecesOutput_wikiLink (fuel : Nat) :
    ∀ (cs : List Char) (prev : Option Char), cs.length < fuel →
    scanGo parseWikiLink fuel prev cs = piecesOutput (wikiLinkPiecesGo fuel cs) := by
  induction fuel with
  | zero => intro cs prev h; omega
  | succ fuel ih =>
    intro cs prev hlen
    cases cs with
    | nil => rfl
    | cons c cs' =>
      cases hw : wikiLinkAt (c :: cs') with
      | none =>
        have hp : parseWikiLink prev (c :: cs') = none := by
          simp [parseWikiLink, hw]
        simp only [scanGo, hp, wikiLinkPiecesGo, hw, piecesOutput]
        rw [ih cs' (some c) (by simpa using Nat.lt_of_succ_lt_succ hlen)]
        rfl
      | some v =>
        obtain ⟨k, t, r⟩ := v
        have hp : parseWikiLink prev (c :: cs') = some (k, r) := by
          simp [parseWikiLink, hw]
        simp only [scanGo, hp, wikiLinkPiecesGo, hw, piecesOutput]
        rw [ih (cs'.drop (k - 1)) _ ?hdrop]
        · have := List.length_drop (k - 1) cs'
          simp only [List.length_cons] at hlen
          omega

theorem wikiLinkPiecesGo_matched (fuel : Nat) : ∀ (cs m t r : List Char),
    LinkPiece.matched m t r ∈ wikiLinkPiecesGo fuel cs →
    isImageTarget t = true → r = m := by
  induction fuel with
  | zero => intro cs m t r h _; simp [wikiLinkPiecesGo] at h
  | succ fuel ih =>
    intro cs m t r hmem himg
    cases cs with
    | nil => simp [wikiLinkPiecesGo] at hmem
    | cons c cs' =>
      cases hw : wikiLinkAt (c :: cs') with
      | none =>
        simp only [wikiLinkPiecesGo, hw, List.mem_cons] at hmem
        rcases hmem with hmem | hmem
        · exact absurd hmem (by simp)
        · exact ih cs' m t r hmem himg
      | some v =>
        obtain ⟨k, t0, r0⟩ := v
        simp only [wikiLinkPiecesGo, hw, List.mem_cons, LinkPiece.matched.injEq] at hmem
        rcases hmem with ⟨hm, ht, hr⟩ | hmem
        · obtain ⟨_, hrepl⟩ := wikiLinkAt_spec hw
          subst hm ht hr
          exact hrepl himg
        · exact ih (cs'.drop (k - 1)) m t r hmem himg

theorem findQ_append {α : Type} (p : α → Bool) (l1 l2 : List α) :
    (l1 ++ l2).find? p = match l1.find? p with
      | some x => some x
      | none => l2.find? p := by
  induction l1 with
  | nil => simp
  | cons a l ih =>
    cases h : p a with
    | true => simp [List.find?, h]
    | false => simp [List.find?, h, ih]

theorem findFolder_mem {st : FolderStore} {p : Nat} {n : String} {i : Nat}
    (h : findFolderIdByName st p n = some i) : ∃ f ∈ st.folders, f.id = i := by
  unfold findFolderIdByName getAssetFolders at h
  rcases Option.map_eq_some'.mp h with ⟨f, hf, hid⟩
  exact ⟨f, List.mem_of_mem_filter (List.mem_of_find?_eq_some hf), hid⟩

theorem findFolder_mono {st1 st2 : FolderStore} {ext : List AssetFolder}
    (heq : st2.folders = st1.folders ++ ext) {p : Nat} {n : String} {i : Nat}
    (h : findFolderIdByName st1 p n = some i) :
    findFolderIdByName st2 p n = some i := by
  unfold findFolderIdByName getAssetFolders at h ⊢
  rw [heq, List.filter_append, findQ_append]
  rcases Option.map_eq_some'.mp h with ⟨f, hf, hid⟩
  rw [hf]
  simp [hid]

theorem findFolder_none_append {st1 st2 : FolderStore} {ext : List AssetFolder}
    (heq : st2.folders = st1.folders ++ ext) {p : Nat} {n : String}
    (h : findFolderIdByName st1 p n = none) :
    findFolderIdByName st2 p n
      = ((ext.filter (fun f => f.parentId = p)).find?
          (fun f => f.slug = n || f.name = n)).map (fun f => f.id) := by
  unfold findFolderIdByName getAssetFolders at h ⊢
  rw [heq, List.filter_append, findQ_append]
  rw [Option.map_eq_none'.mp h]

theorem ensureStep_found {st : FolderStore} {cur : Nat} {seg : String} {i : Nat}
    (h : findFolderIdByName st cur seg = some i) (hi : i ≠ 0) :
    ensureStep storeRemote st cur seg = (i, st) := by
  unfold ensureStep storeRemote
  dsimp only
  rw [h]
  simp [truthyId, hi]

theorem ensureStep_found_zero {st : FolderStore} {cur : Nat} {seg : String}
    (h : findFolderIdByName st cur seg = some 0) :
    ensureStep storeRemote st cur seg = (cur, st) := by
  unfold ensureStep storeRemote createAssetFolder
  dsimp only
  rw [h]
  simp [truthyId, h]

theorem ensureStep_create {st : FolderStore} {cur : Nat} {seg : String}
    (h : findFolderIdByName st cur seg = none) (hn : st.nextId ≠ 0) :
    ensureStep storeRemote st cur seg
      = (st.nextId, ⟨st.folders ++ [⟨st.nextId, cur, seg, seg⟩], st.nextId + 1⟩) := by
  have hf2 : findFolderIdByName
      ⟨st.folders ++ [⟨st.nextId, cur, seg, seg⟩], st.nextId + 1⟩ cur seg
      = some st.nextId := by
    have heq0 : (⟨st.folders ++ [⟨st.nextId, cur, seg, seg⟩], st.nextId + 1⟩ :
        FolderStore).folders = st.folders ++ [⟨st.nextId, cur, seg, seg⟩] := rfl
    rw [findFolder_none_append heq0 h]
    simp
  unfold ensureStep storeRemote createAssetFolder
  dsimp only
  rw [h]
  simp only [truthyId, Option.isSome_none, Bool.false_eq_true, if_false]
  rw [hf2]
  simp [truthyId, hn]

theorem storeInv_append_new {st : FolderStore} (hinv : storeInv st) (cur : Nat)
    (seg : String) (hn : st.nextId ≠ 0) :
    storeInv ⟨st.folders ++ [⟨st.nextId, cur, seg, seg⟩], st.nextId + 1⟩ := by
  constructor
  · simp
  · intro f hf
    rcases List.mem_append.mp hf with hf | hf
    · exact hinv.2 f hf
    · simp at hf
      rw [hf]
      exact hn

theorem ensureGo_extends_inv (parts : List String) : ∀ (cur : Nat) (st : FolderStore),
    storeInv st →
    (∃ ext, (ensureGo storeRemote parts cur st).2.folders = st.folders ++ ext) ∧
    storeInv (ensureGo storeRemote parts cur st).2 := by
  induction parts with
  | nil => intro cur st hinv; exact ⟨⟨[], by simp [ensureGo]⟩, hinv⟩
  | cons seg rest ih =>
    intro cur st hinv
    rcases hfind : findFolderIdByName st cur seg with _ | i
    · have hn : st.nextId ≠ 0 := Nat.pos_iff_ne_zero.mp hinv.1
      have hstep := ensureStep_create hfind hn
      have hrw : ensureGo storeRemote (seg :: rest) cur st
          = ensureGo storeRemote rest st.nextId
              ⟨st.folders ++ [⟨st.nextId, cur, seg, seg⟩], st.nextId + 1⟩ := by
        simp only [ensureGo, hstep]
      rw [hrw]
      obtain ⟨⟨ext, hext⟩, hinvf⟩ :=
        ih st.nextId _ (storeInv_append_new hinv cur seg hn)
      refine ⟨⟨⟨st.nextId, cur, seg, seg⟩ :: ext, ?_⟩, hinvf⟩
      rw [hext]
      simp
    · by_cases hi : i = 0
      · subst hi
        have hstep := ensureStep_found_zero hfind
        have hrw : ensureGo storeRemote (seg :: rest) cur st
            = ensureGo storeRemote rest cur st := by
          simp only [ensureGo, hstep]
        rw [hrw]
        exact ih cur st hinv
      · have hstep := ensureStep_found hfind hi
        have hrw : ensureGo storeRemote (seg :: rest) cur st
            = ensureGo storeRemote rest i st := by
          simp only [ensureGo, hstep]
        rw [hrw]
        exact ih i st hinv

theorem ensureGo_idem (parts : List String) : ∀ (cur : Nat) (st : FolderStore),
    storeInv st →
    ensureGo storeRemote parts cur ((ensureGo storeRemote parts cur st).2)
      = ensureGo storeRemote parts cur st := by
  induction parts with
  | nil => intro cur st _; rfl
  | cons seg rest ih =>
    intro cur st hinv
    rcases hfind : findFolderIdByName st cur seg with _ | i
    · have hn : st.nextId ≠ 0 := Nat.pos_iff_ne_zero.mp hinv.1
      have hstep := ensureStep_create hfind hn
      have hinv1 := storeInv_append_new hinv cur seg hn
      have hrw : ensureGo storeRemote (seg :: rest) cur st
          = ensureGo storeRemote rest st.nextId
              ⟨st.folders ++ [⟨st.nextId, cur, seg, seg⟩], st.nextId + 1⟩ := by
        simp only [ensureGo, hstep]
      obtain ⟨⟨ext, hext⟩, _⟩ := ensureGo_extends_inv rest st.nextId _ hinv1
      have heq2 : (ensureGo storeRemote rest st.nextId
          ⟨st.folders ++ [⟨st.nextId, cur, seg, seg⟩], st.nextId + 1⟩).2.folders
          = st.folders ++ (⟨st.nextId, cur, seg, seg⟩ :: ext) := by
        rw [hext]
        simp
      have hfind' : findFolderIdByName (ensureGo storeRemote rest st.nextId
          ⟨st.folders ++ [⟨st.nextId, cur, seg, seg⟩], st.nextId + 1⟩).2 cur seg
          = some st.nextId := by
        rw [findFolder_none_append heq2 hfind]
        simp
      have hstep' := ensureStep_found hfind' hn
      rw [hrw]
      have hrw2 : ensureGo storeRemote (seg :: rest) cur
          ((ensureGo storeRemote rest st.nextId
            ⟨st.folders ++ [⟨st.nextId, cur, seg, seg⟩], st.nextId + 1⟩).2)
          = ensureGo storeRemote rest st.nextId
              ((ensureGo storeRemote rest st.nextId
                ⟨st.folders ++ [⟨st.nextId, cur, seg, seg⟩], st.nextId + 1⟩).2) := by
        simp only [ensureGo, hstep']
      rw [hrw2]
      exact ih st.nextId _ hinv1
    · by_cases hi : i = 0
      · exfalso
        subst hi
        obtain ⟨f, hmem, hfid⟩ := findFolder_mem hfind
        exact hinv.2 f hmem hfid
      · have hstep := ensureStep_found hfind hi
        have hrw : ensureGo storeRemote (seg :: rest) cur st
            = ensureGo storeRemote rest i st := by
          simp only [ensureGo, hstep]
        obtain ⟨⟨ext, hext⟩, _⟩ := ensureGo_extends_inv rest i st hinv
        have hfind' : findFolderIdByName (ensureGo storeRemote rest i st).2 cur seg
            = some i := findFolder_mono hext hfind
        have hstep' := ensureStep_found hfind' hi
        rw [hrw]
        have hrw2 : ensureGo storeRemote (seg :: rest) cur
            ((ensureGo storeRemote rest i st).2)
            = ensureGo storeRemote rest i ((ensureGo storeRemote rest i st).2) := by
          simp only [ensureGo, hstep']
        rw [hrw2]
        exact ih i st hinv

/-! ## Claim theorems -/

/-- C7: `generatePath` applied to the dated note file name and the
folder path strips the extension, lowercases, hyphenates whitespace,
drops the date marker, filters the remaining characters, and prefixes
the identically normalized folder path with a slash separator. -/
theorem generatePath_dated_note_example :
    generatePath "2024-01-01-My Note.md" (some "Folder A") = "folder-a/my-note" := by
  decide

/-- C3: with the preserve-native-syntax flag false, the double-bracket
embed of `pic.PNG` under page path `docs/guide` becomes standard image
markup whose URL is `/docs/guide/pic.png` (bare file name lowercased,
whitespace underscored, prefixed root-relatively with the page path),
whatever the other settings are. -/
theorem processMarkdown_image_embed_url (wikiUrl apiToken : String)
    (defaultTags : List String) (autoConvertLinks : Bool) :
    (processMarkdown ⟨wikiUrl, apiToken, defaultTags, autoConvertLinks, false⟩
        "![[pic.PNG]]" "note.md" (some "docs/guide")).content
      = "![pic.png](/docs/guide/pic.png)" := by
  cases autoConvertLinks <;> rfl

/-- C9: the mapping `resolveImageFiles` returns holds an entry for a
path exactly when some reference of the batch carries that path and the
per-reference resolver finds a file for it; unresolved references are
simply omitted and never disturb the other entries. -/
theorem resolveImageFiles_entries (resolve : String → Option VFile)
    (images : List ImageRef) (p : String) (f : VFile) :
    mapGet (resolveImageFiles resolve images) p = some f ↔
      ((∃ img ∈ images, img.path = p) ∧ resolve p = some f) := by
  unfold resolveImageFiles
  rw [resolveImageFilesGo_get]
  by_cases hc : (∃ i ∈ images, i.path = p) ∧ (resolve p).isSome = true
  · rw [if_pos hc]
    exact ⟨fun h => ⟨hc.1, h⟩, fun h => h.2⟩
  · rw [if_neg hc]
    simp only [mapGet]
    constructor
    · intro h
      exact absurd h (by simp)
    · rintro ⟨hex, hres⟩
      exact absurd ⟨hex, by simp [hres]⟩ hc

/-- C10: `createPage` and `updatePage` never propagate an exception:
whatever the channel outcome, each returns an `UploadResult`, successful
exactly when the remote mutation reported success, and a thrown channel
error is converted into a failure result carrying the error message. -/
theorem createPage_updatePage_never_throw (settings : WikiJSSettings) (path : String)
    (oc ou : GraphQLOutcome PageMutationData) :
    ((∃ u, createPage settings path oc = .ok u ∧
        (u.success = true ↔ ∃ d, oc = .payload d ∧ d.responseResult.succeeded = true)) ∧
      ∀ e, makeGraphQLRequest oc = .error e →
        createPage settings path oc = .ok ⟨false, "Error creating page: " ++ e, none, none⟩) ∧
    ((∃ v, updatePage settings path ou = .ok v ∧
        (v.success = true ↔ ∃ d, ou = .payload d ∧ d.responseResult.succeeded = true)) ∧
      ∀ e, makeGraphQLRequest ou = .error e →
        updatePage settings path ou = .ok ⟨false, "Error updating page: " ++ e, none, none⟩) := by
  constructor
  · constructor
    · cases oc with
      | payload d =>
        cases hs : d.responseResult.succeeded with
        | true =>
          refine ⟨⟨true, "Page created successfully", some d.page.id,
            some (settings.wikiUrl ++ "/" ++ path)⟩, ?_, ?_⟩
          · simp [createPage, createPageBody, makeGraphQLRequest, exceptCaught,
              bind, Except.bind, pure, Except.pure, hs]
          · exact ⟨fun _ => ⟨d, rfl, hs⟩, fun _ => rfl⟩
        | false =>
          refine ⟨⟨false,
            if d.responseResult.message = "" then "Unknown error occurred"
            else d.responseResult.message, none, none⟩, ?_, ?_⟩
          · simp [createPage, createPageBody, makeGraphQLRequest, exceptCaught,
              bind, Except.bind, pure, Except.pure, hs]
          · simp only [Bool.false_eq_true, false_iff]
            rintro ⟨d', hd, hsd⟩
            obtain rfl : d = d' := by injection hd
            simp [hs] at hsd
      | parseFailure m =>
        refine ⟨⟨false, "Error creating page: " ++ m, none, none⟩, ?_, by simp⟩
        simp [createPage, createPageBody, makeGraphQLRequest, exceptCaught, bind, Except.bind, pure, Except.pure]
      | httpNotOk st b =>
        refine ⟨⟨false, "Error creating page: " ++
          ("HTTP error! status: " ++ toString st ++ ", message: " ++ b), none, none⟩, ?_, by simp⟩
        simp [createPage, createPageBody, makeGraphQLRequest, exceptCaught, bind, Except.bind, pure, Except.pure]
      | remoteErrors ms =>
        refine ⟨⟨false, "Error creating page: " ++
          ("GraphQL error: " ++ String.intercalate ", " ms), none, none⟩, ?_, by simp⟩
        simp [createPage, createPageBody, makeGraphQLRequest, exceptCaught, bind, Except.bind, pure, Except.pure]
    · intro e he
      cases oc <;>
        simp_all [makeGraphQLRequest, createPage, createPageBody, exceptCaught,
          bind, Except.bind, pure, Except.pure]
  · constructor
    · cases ou with
      | payload d =>
        cases hs : d.responseResult.succeeded with
        | true =>
          refine ⟨⟨true, "Page updated successfully", some d.page.id,
            some (settings.wikiUrl ++ "/" ++ path)⟩, ?_, ?_⟩
          · simp [updatePage, updatePageBody, makeGraphQLRequest, exceptCaught,
              bind, Except.bind, pure, Except.pure, hs]
          · exact ⟨fun _ => ⟨d, rfl, hs⟩, fun _ => rfl⟩
        | false =>
          refine ⟨⟨false,
            if d.responseResult.message = "" then "Unknown error occurred"
            else d.responseResult.message, none, none⟩, ?_, ?_⟩
          · simp [updatePage, updatePageBody, makeGraphQLRequest, exceptCaught,
              bind, Except.bind, pure, Except.pure, hs]
          · simp only [Bool.false_eq_true, false_iff]
            rintro ⟨d', hd, hsd⟩
            obtain rfl : d = d' := by injection hd
            simp [hs] at hsd
      | parseFailure m =>
        refine ⟨⟨false, "Error updating page: " ++ m, none, none⟩, ?_, by simp⟩
        simp [updatePage, updatePageBody, makeGraphQLRequest, exceptCaught, bind, Except.bind, pure, Except.pure]
      | httpNotOk st b =>
        refine ⟨⟨false, "Error updating page: " ++
          ("HTTP error! status: " ++ toString st ++ ", message: " ++ b), none, none⟩, ?_, by simp⟩
        simp [updatePage, updatePageBody, makeGraphQLRequest, exceptCaught, bind, Except.bind, pure, Except.pure]
      | remoteErrors ms =>
        refine ⟨⟨false, "Error updating page: " ++
          ("GraphQL error: " ++ String.intercalate ", " ms), none, none⟩, ?_, by simp⟩
        simp [updatePage, updatePageBody, makeGraphQLRequest, exceptCaught, bind, Except.bind, pure, Except.pure]
    · intro e he
      cases ou <;>
        simp_all [makeGraphQLRequest, updatePage, updatePageBody, exceptCaught,
          bind, Except.bind, pure, Except.pure]

/-- Witness for C10 at concrete inputs: a remote-error channel outcome
yields a caught failure result for `createPage`, and a successful
payload yields a success result for `updatePage`. -/
theorem createPage_updatePage_never_throw_witness :
    createPage ⟨"http://w", "t", [], false, false⟩ "p"
        (GraphQLOutcome.remoteErrors ["boom"])
      = .ok ⟨false, "Error creating page: GraphQL error: boom", none, none⟩ ∧
    ∃ v, updatePage ⟨"http://w", "t", [], false, false⟩ "p"
        (GraphQLOutcome.payload ⟨⟨true, 0, "s", "ok"⟩, ⟨3, "p", "T"⟩⟩) = .ok v ∧
      v.success = true := by
  have h := createPage_updatePage_never_throw ⟨"http://w", "t", [], false, false⟩ "p"
    (GraphQLOutcome.remoteErrors ["boom"])
    (GraphQLOutcome.payload ⟨⟨true, 0, "s", "ok"⟩, ⟨3, "p", "T"⟩⟩)
  constructor
  · exact h.1.2 "GraphQL error: boom" (by rfl)
  · obtain ⟨v, hv, hiff⟩ := h.2.1
    exact ⟨v, hv, hiff.mpr ⟨_, rfl, rfl⟩⟩

/-- C1: against a well-formed remote store that no one else mutates in
between, running `ensureAssetFolderPath` twice in sequence on a page
path with at least one folder segment returns the same folder identifier
both times: the get-or-create materialization is idempotent. -/
theorem ensureAssetFolderPath_idempotent (st : FolderStore) (path : String)
    (hinv : storeInv st) (hsegs : folderSegs path ≠ []) :
    (ensureAssetFolderPath storeRemote
        ((ensureAssetFolderPath storeRemote st path).2) path).1
      = (ensureAssetFolderPath storeRemote st path).1 := by
  unfold ensureAssetFolderPath
  rw [ensureGo_idem (folderSegs path) 0 st hinv]

/-- Witness for C1: from an empty store, materializing `a/b/c` twice
returns identifier 2 both times. -/
theorem ensureAssetFolderPath_idempotent_witness :
    storeInv ⟨[], 1⟩ ∧ folderSegs "a/b/c" ≠ [] ∧
    (ensureAssetFolderPath storeRemote
        ((ensureAssetFolderPath storeRemote ⟨[], 1⟩ "a/b/c").2) "a/b/c").1
      = (ensureAssetFolderPath storeRemote ⟨[], 1⟩ "a/b/c").1 ∧
    (ensureAssetFolderPath storeRemote ⟨[], 1⟩ "a/b/c").1 = 2 :=
  ⟨by decide, by decide,
    ensureAssetFolderPath_idempotent ⟨[], 1⟩ "a/b/c" (by decide) (by decide),
    by decide⟩

/-- C2: when the name query misses and the creation does not yield a
usable id, `ensureAssetFolderPath`'s loop re-queries: a hit makes the
loop descend into the found folder (no error escapes), and a second miss
makes it continue processing the remaining segments from the current,
un-descended parent folder. -/
theorem ensureGo_creation_race_fallback {σ : Type} (R : FolderRemote σ)
    (st st1 st2 st3 : σ) (cur : Nat) (seg : String) (rest : List String)
    (q1 : Option Nat) (cr : CreateFolderResult) (q2 : Option Nat)
    (h1 : R.find st cur seg = (q1, st1)) (h2 : truthyId q1 = false)
    (h3 : R.create st1 cur seg = (cr, st2))
    (h4 : (cr.succeeded && truthyId cr.folderId) = false)
    (h5 : R.find st2 cur seg = (q2, st3)) :
    ensureGo R (seg :: rest) cur st
      = ensureGo R rest (if truthyId q2 then q2.getD 0 else cur) st3 := by
  simp only [ensureGo, ensureStep, h1, h2, h3, h4, h5]
  by_cases hq2 : truthyId q2 = true <;> simp [hq2]

/-- Witness for C2 on the scripted remote: a simulated race (miss,
failed create, second query hits folder 5) descends into folder 5; a
doubly failing first segment leaves the parent at the root and the next
segment still runs, finding folder 7. -/
theorem ensureGo_creation_race_fallback_witness :
    ensureGo scriptedRemote ["docs"] 0 ⟨[none, some 5], [⟨false, none, none⟩]⟩
        = (5, ⟨[], []⟩) ∧
    ensureGo scriptedRemote ["a", "b"] 0
        ⟨[none, none, some 7], [⟨false, none, none⟩]⟩ = (7, ⟨[], []⟩) := by
  constructor
  · have h := ensureGo_creation_race_fallback scriptedRemote
      ⟨[none, some 5], [⟨false, none, none⟩]⟩ ⟨[some 5], [⟨false, none, none⟩]⟩
      ⟨[some 5], []⟩ ⟨[], []⟩ 0 "docs" []
      none ⟨false, none, none⟩ (some 5) (by rfl) (by decide) (by rfl) (by decide) (by rfl)
    rw [h]
    decide
  · have h := ensureGo_creation_race_fallback scriptedRemote
      ⟨[none, none, some 7], [⟨false, none, none⟩]⟩
      ⟨[none, some 7], [⟨false, none, none⟩]⟩
      ⟨[none, some 7], []⟩ ⟨[some 7], []⟩ 0 "a" ["b"]
      none ⟨false, none, none⟩ none (by rfl) (by decide) (by rfl) (by decide) (by rfl)
    rw [h]
    decide

/-- C4: per construct, for every text whatever its other content: the
wiki-link stage's traversal decomposes the text exactly into copied
characters and matched double-bracket constructs (the decomposition
reassembles to the input), the stage's output is that decomposition with
each match replaced, and every matched construct whose target ends in a
recognized image extension is replaced by itself, verbatim — so the link
rule never rewrites an image-target construct into a standard link,
regardless of surrounding content; such a construct is left for the
image-embed rule. -/
theorem convertObsidianLinks_image_construct_verbatim (s : String) :
    piecesSource (wikiLinkPieces s) = s.data ∧
    convertObsidianLinks s = ⟨piecesOutput (wikiLinkPieces s)⟩ ∧
    ∀ m t r : List Char, LinkPiece.matched m t r ∈ wikiLinkPieces s →
      isImageTarget t = true → r = m := by
  refine ⟨piecesSource_wikiLink _ s.data (by omega), ?_, ?_⟩
  · unfold convertObsidianLinks scanStr wikiLinkPieces
    rw [piecesOutput_wikiLink _ s.data none (by omega)]
  · intro m t r hmem himg
    exact wikiLinkPiecesGo_matched _ s.data m t r hmem himg

/-- Witness for C4 on a mixed text: the ordinary wiki link is converted
while the image-target construct, present as a match of the link rule's
own traversal, survives verbatim in the output. -/
theorem convertObsidianLinks_image_construct_verbatim_witness :
    LinkPiece.matched "[[pic.png]]".data "pic.png".data "[[pic.png]]".data
        ∈ wikiLinkPieces "[[Note]] ![[pic.png]]" ∧
    isImageTarget "pic.png".data = true ∧
    convertObsidianLinks "[[Note]] ![[pic.png]]" = "[Note](/note) ![[pic.png]]" := by
  refine ⟨by decide, by decide, ?_⟩
  have h2 := (convertObsidianLinks_image_construct_verbatim "[[Note]] ![[pic.png]]").2.1
  have h3 := (convertObsidianLinks_image_construct_verbatim "[[Note]] ![[pic.png]]").2.2
    "[[pic.png]]".data "pic.png".data "[[pic.png]]".data (by decide) (by decide)
  rw [h2]
  decide

/-- C5 counterexample: the claimed identity-modulo-two-transformations
fails as stated.  On `" x"` — which has no recognized constructs, and on
which both front-matter stripping and newline collapsing are the
identity — the returned content is the trimmed `"x"`, a third
transformation; and with the auto-convert-links flag on, the relative
standard link `[a](b)` (also construct-free and untouched by the two
transformations) is rewritten to `[a](/b)`. -/
theorem processMarkdown_identity_counterexample :
    (noSourceConstructs " x" ∧ stripThenCollapse " x" = " x" ∧
      (processMarkdown ⟨"u", "t", [], false, false⟩ " x" "f.md" none).content = "x" ∧
      (" x" : String) ≠ "x") ∧
    (noSourceConstructs "[a](b)" ∧ stripThenCollapse "[a](b)" = "[a](b)" ∧
      (processMarkdown ⟨"u", "t", [], true, false⟩ "[a](b)" "f.md" none).content
        = "[a](/b)" ∧
      ("[a](b)" : String) ≠ "[a](/b)") := by
  decide

/-- C5 amended: with the auto-convert-links flag off, for every input
with no recognized source-dialect constructs the returned content is the
input with the leading front-matter block stripped, newline runs
collapsed, and leading/trailing whitespace trimmed. -/
theorem processMarkdown_no_constructs (settings : WikiJSSettings)
    (content fileName : String) (pagePath : Option String)
    (hauto : settings.autoConvertLinks = false)
    (h : noSourceConstructs content) :
    (processMarkdown settings content fileName pagePath).content
      = jsTrim (stripThenCollapse content) := by
  obtain ⟨h1, h2, h3, h4, h5⟩ := h
  have hstage : (if !settings.preserveObsidianSyntax then
      convertObsidianCallouts (convertObsidianTags
        (convertObsidianImages (convertObsidianLinks content) pagePath))
      else content) = content := by
    cases hp : settings.preserveObsidianSyntax with
    | true => simp
    | false =>
      simp only [Bool.not_false, if_true]
      rw [convertObsidianLinks_noMatch_id content h1,
        convertObsidianImages_noMatch_id content pagePath h2,
        convertObsidianTags_noMatch_id content h3,
        convertObsidianCallouts_noMatch_id content h4]
  unfold processMarkdown
  rw [hstage, hauto]
  simp only [Bool.false_eq_true, if_false]
  rw [cleanupObsidianSyntax_no_header content h5]

/-- Witness for C5 amended at a concrete construct-free input containing
a newline run. -/
theorem processMarkdown_no_constructs_witness :
    noSourceConstructs "hello\n\n\n\nworld" ∧
    (processMarkdown ⟨"u", "t", [], false, false⟩ "hello\n\n\n\nworld" "f.md"
        none).content
      = jsTrim (stripThenCollapse "hello\n\n\n\nworld") :=
  ⟨by decide, processMarkdown_no_constructs _ _ _ _ (by rfl) (by decide)⟩

/-- C6 counterexample: two identical front-matter tags survive into the
result, so `extractTags` can return duplicate entries. -/
theorem extractTags_duplicate_counterexample :
    extractTags "---\ntags: a, a\n---" = ["a", "a"] ∧
      ¬ (extractTags "---\ntags: a, a\n---").Nodup := by
  constructor
  · decide
  · decide

/-- C6 amended: only the inline-derived tags are deduplicated: the
result is the front-matter tags followed by inline tags that are
pairwise distinct and distinct from every front-matter tag (with empties
dropped at the end); front-matter tags themselves are not
deduplicated. -/
theorem extractTags_inline_no_dup (content : String) :
    ∃ inl, extractTags content
        = (frontMatterTags content ++ inl).filter (fun t => 0 < t.length) ∧
      inl.Nodup ∧ ∀ t ∈ inl, t ∉ frontMatterTags content := by
  obtain ⟨add, heq, hnd, hni⟩ := foldl_dedup (inlineTags content) (frontMatterTags content)
  exact ⟨add, by simp [extractTags, heq], hnd, hni⟩

/-- C8: once the inputs validate and any existing page is confirmed for
update, the upload attempt's events are the image events — the folder
preparation followed by one event per image, each a function of that
image alone — followed by the page mutation, and the attempt's result is
exactly the page mutation's result, regardless of how image resolution
and upload went. -/
theorem performUpload_page_mutation_decides (settings : WikiJSSettings)
    (pathInput titleInput content fileName : String) (images : List ImageRef)
    (existingPage : Option Nat) (confirm : Bool) (ensure : Except String Nat)
    (resolveImageFile : String → Option VFile)
    (readUpload : VFile → Except String String)
    (mutate : Bool → String → UploadResult)
    (hpath : jsTrim pathInput ≠ "") (htitle : jsTrim titleInput ≠ "")
    (hconfirm : existingPage.isSome = true → confirm = true) :
    performUpload settings pathInput titleInput content fileName images existingPage
        confirm ensure resolveImageFile readUpload mutate
      = ⟨(if 0 < images.length then
            UploadEvent.folderPrepared (match ensure with | .ok i => i | .error _ => 0) ::
              images.map (uploadImageOne (resolveImageFiles resolveImageFile images) readUpload)
          else [])
          ++ [UploadEvent.pageMutated existingPage.isSome
                (mutate existingPage.isSome
                  (processMarkdown settings content fileName (some (jsTrim pathInput))).content).success],
         some (mutate existingPage.isSome
            (processMarkdown settings content fileName (some (jsTrim pathInput))).content)⟩ := by
  have hc : (existingPage.isSome && !confirm) = false := by
    cases hE : existingPage with
    | none => simp
    | some i => simp [hconfirm (by simp [hE])]
  have h3 : ¬((existingPage.isSome && !confirm) = true) := by simp [hc]
  unfold performUpload
  rw [if_neg hpath, if_neg htitle, if_neg h3]
  simp only [uploadImages, uploadImagesGo_eq_map]

/-- Witness for C8: two images, one unresolvable and one whose upload
fails, do not stop each other or the page mutation, which alone makes
the attempt successful. -/
theorem performUpload_page_mutation_decides_witness :
    performUpload ⟨"http://w", "t", [], false, false⟩ "a/p" "T" "hi" "n.md"
        [⟨"i.png", "i.png"⟩, ⟨"j.png", "j.png"⟩] none false (.error "down")
        (fun p => if p = "i.png" then some ⟨"i.png", "i.png"⟩ else none)
        (fun _ => .error "network")
        (fun _ _ => ⟨true, "ok", none, none⟩)
      = ⟨[.folderPrepared 0, .imageFailed "i.png" "network", .imageNotFound "j.png",
          .pageMutated false true], some ⟨true, "ok", none, none⟩⟩ := by
  have h := performUpload_page_mutation_decides ⟨"http://w", "t", [], false, false⟩
    "a/p" "T" "hi" "n.md" [⟨"i.png", "i.png"⟩, ⟨"j.png", "j.png"⟩] none false (.error "down")
    (fun p => if p = "i.png" then some ⟨"i.png", "i.png"⟩ else none)
    (fun _ => .error "network") (fun _ _ => ⟨true, "ok", none, none⟩)
    (by decide) (by decide) (by decide)
  rw [h]
  decide

end NoteToWikiJS
